import Mathlib

/-!
Shallow embedding of the `etl.py` pipeline (extract / transform stages) and
verification of the specification's claims about it.

The extraction loop (`extract_cms_data`) is modelled with an abstract page
fetcher `fetch : String → Nat → Except Unit (List RawRecord)` standing for one
HTTP request per (state, offset) pair; `Except.error` models any exception
caught by the `try/except` around the request.  The unbounded `while True`
loop is modelled with explicit fuel; all universal theorems hold for every
fuel value, and concrete scenarios use enough fuel for the loop to terminate
on its own.

The transform stage (`transform_data`) works on a shallow model of a pandas
DataFrame: a list of column names plus one association list (column, cell)
per row.  A `Cell` is null (NaN/None), a string, a number, or the opaque
load timestamp.  Operations that raise `KeyError` in pandas (reading or
selecting a missing column) are modelled with `Except`.
-/

set_option maxRecDepth 10000

namespace Etl

/-! ### Configuration constants (etl.py lines 22-26) -/

def STATES_LIST : List String := ["AL", "SD"]

def SPECIALTY_FILTER : List String := ["ORTHOPEDIC SURGERY", "DIAGNOSTIC RADIOLOGY"]

def CHUNK_SIZE : Nat := 1000

/-! ### Raw records

A raw record is a JSON object: an association list from field name to a
string value or JSON null.  `getField` models Python's `x.get(k)`, which
returns `None` both when the key is absent and when its value is null.
-/

abbrev RawRecord := List (String × Option String)

def lookupKey (k : String) : List (String × α) → Option α
  | [] => none
  | kv :: rest => if kv.1 = k then some kv.2 else lookupKey k rest

def getField (x : RawRecord) (k : String) : Option String :=
  (lookupKey k x).bind id

/-- The filter on etl.py line 60: `x.get("pri_spec") in SPECIALTY_FILTER`.
A missing or null value is not a member of the allow-list, so it is excluded. -/
def isAllowed (x : RawRecord) : Bool :=
  match getField x "pri_spec" with
  | some s => decide (s ∈ SPECIALTY_FILTER)
  | none => false

/-! ### Extraction loop (etl.py lines 36-68)

`extractLoop fetch fuel offset` returns the list of offsets actually fetched
together with the accumulated filtered records, for one partition key.
It mirrors the `while True` body: on a fetch error, break; on an empty page,
break; otherwise filter and extend, then break if the page was short,
else advance the offset by `CHUNK_SIZE`.
-/

def extractLoop (fetch : Nat → Except Unit (List RawRecord)) :
    Nat → Nat → List Nat × List RawRecord
  | 0, _ => ([], [])
  | fuel + 1, offset =>
    match fetch offset with
    | Except.error _ => ([offset], [])
    | Except.ok data =>
      if data.isEmpty then ([offset], [])
      else if data.length < CHUNK_SIZE then ([offset], data.filter isAllowed)
      else
        (offset :: (extractLoop fetch fuel (offset + CHUNK_SIZE)).1,
         data.filter isAllowed ++ (extractLoop fetch fuel (offset + CHUNK_SIZE)).2)

/-- The outer `for state in STATES_LIST` loop: the accumulator is extended
with each state's records in order. -/
def extractStates (fetch : String → Nat → Except Unit (List RawRecord))
    (fuel : Nat) : List String → List RawRecord
  | [] => []
  | st :: rest => (extractLoop (fetch st) fuel 0).2 ++ extractStates fetch fuel rest

def extract_cms_data (fetch : String → Nat → Except Unit (List RawRecord))
    (fuel : Nat) : List RawRecord :=
  extractStates fetch fuel STATES_LIST

/-- The successful pages consumed by the loop for one partition key, in fetch
order, before filtering.  Used to state the ordering guarantee. -/
def pagesOf (fetch : Nat → Except Unit (List RawRecord)) :
    Nat → Nat → List (List RawRecord)
  | 0, _ => []
  | fuel + 1, offset =>
    match fetch offset with
    | Except.error _ => []
    | Except.ok data =>
      if data.isEmpty then []
      else if data.length < CHUNK_SIZE then [data]
      else data :: pagesOf fetch fuel (offset + CHUNK_SIZE)

/-! ### Cells and the DataFrame model

A `Cell` is one scalar value of the table.  `Cell.null` stands for both
pandas NaN and Python None (missing dict key and JSON null both become a
null cell when the DataFrame is built).  `Cell.time` is the opaque value of
`pd.Timestamp.utcnow()`, captured once per run.
-/

inductive Cell where
  | null : Cell
  | str : String → Cell
  | num : Int → Cell
  | time : Nat → Cell
deriving DecidableEq, Repr

abbrev Row := List (String × Cell)

structure DF where
  cols : List String
  rows : List Row
deriving DecidableEq, Repr

/-- Cell of a row at a named column; a missing entry reads as null (rows are
always aligned with the column list by construction). -/
def cellAt (row : Row) (c : String) : Cell :=
  (lookupKey c row).getD Cell.null

/-- The value a raw record contributes to column `c` of the initial
DataFrame: NaN when the key is absent, None for JSON null, else the string. -/
def rawCell (r : RawRecord) (c : String) : Cell :=
  match lookupKey c r with
  | none => Cell.null
  | some none => Cell.null
  | some (some s) => Cell.str s

/-- Union of the records' field names in order of first appearance: the
column set `pd.DataFrame(raw_list)` builds from a list of dicts. -/
def addKeys (acc : List String) (r : RawRecord) : List String :=
  r.foldl (fun a kv => if kv.1 ∈ a then a else a ++ [kv.1]) acc

def unionKeys (raws : List RawRecord) : List String :=
  raws.foldl addKeys []

def baseRow (cols : List String) (r : RawRecord) : Row :=
  cols.map (fun c => (c, rawCell r c))

/-- `pd.DataFrame(raw_list)` (etl.py line 79). -/
def mkDF (raws : List RawRecord) : DF :=
  ⟨unionKeys raws, raws.map (baseRow (unionKeys raws))⟩

/-! ### Transform steps (etl.py lines 81-142) -/

/-- The fixed rename dictionary of etl.py lines 81-117. -/
def rename_map : List (String × String) :=
  [ ("npi", "npi"),
    ("ind_pac_id", "individual_pac_id"),
    ("ind_enrl_id", "individual_enrollment_id"),
    ("provider_last_name", "provider_last_name"),
    ("provider_first_name", "provider_first_name"),
    ("provider_middle_name", "provider_middle_name"),
    ("suff", "provider_suffix"),
    ("gndr", "gender"),
    ("cred", "credential"),
    ("med_sch", "medical_school_name"),
    ("grd_yr", "graduation_year"),
    ("pri_spec", "primary_specialty"),
    ("sec_spec_1", "secondary_specialty_1"),
    ("sec_spec_2", "secondary_specialty_2"),
    ("sec_spec_3", "secondary_specialty_3"),
    ("sec_spec_4", "secondary_specialty_4"),
    ("sec_spec_all", "secondary_specialties_all"),
    ("telehlth", "offers_telehealth"),
    ("facility_name", "facility_name"),
    ("org_pac_id", "organization_pac_id"),
    ("num_org_mem", "number_of_group_members"),
    ("adr_ln_1", "address_line_1"),
    ("adr_ln_2", "address_line_2"),
    ("ln_2_sprs", "line2_suppression_flag"),
    ("citytown", "city"),
    ("state", "state"),
    ("zip_code", "zip_code"),
    ("telephone_number", "telephone_number"),
    ("ind_assgn", "individual_accepts_medicare_assignment"),
    ("grp_assgn", "group_accepts_medicare_assignment"),
    ("adrs_id", "address_id"),
    ("record_number", "record_number"),
    ("bq_load_dttm", "bq_load_dttm") ]

/-- The source field names known to the pipeline (domain of the rename map). -/
def sourceFields : List String := rename_map.map Prod.fst

/-- `df.rename(columns=rename_map)` renames a matching label and keeps any
other label unchanged. -/
def renameCol (c : String) : String :=
  (lookupKey c rename_map).getD c

def renameRow (row : Row) : Row :=
  row.map (fun kv => (renameCol kv.1, kv.2))

def renameDF (df : DF) : DF :=
  ⟨df.cols.map renameCol, df.rows.map renameRow⟩

/-- `.replace({"": None})`: an empty-string cell becomes null. -/
def emptyToNull (c : Cell) : Cell :=
  if c = Cell.str "" then Cell.null else c

def mapValsRow (f : Cell → Cell) (row : Row) : Row :=
  row.map (fun kv => (kv.1, f kv.2))

def replaceEmptyDF (df : DF) : DF :=
  ⟨df.cols, df.rows.map (mapValsRow emptyToNull)⟩

def digitsToNat (l : List Char) : Nat :=
  l.foldl (fun n c => 10 * n + (c.toNat - Char.toNat (Char.ofNat 48))) 0

/-- Integer parsing used to model `pd.to_numeric(errors="coerce")` on the
string cells of this dataset (optionally signed decimal integer literals;
anything else coerces to NaN). -/
def parseNum (s : String) : Option Int :=
  match s.toList with
  | [] => none
  | c :: rest =>
    if c = Char.ofNat 45 then
      (if rest.isEmpty then none
       else if rest.all Char.isDigit then some (-(Int.ofNat (digitsToNat rest)))
       else none)
    else if (c :: rest).all Char.isDigit then
      some (Int.ofNat (digitsToNat (c :: rest)))
    else none

def toNumericCell : Cell → Cell
  | Cell.null => Cell.null
  | Cell.str s =>
    match parseNum s with
    | some n => Cell.num n
    | none => Cell.null
  | Cell.num n => Cell.num n
  | Cell.time t => Cell.time t

def mapColRow (c : String) (f : Cell → Cell) (row : Row) : Row :=
  row.map (fun kv => if kv.1 = c then (kv.1, f kv.2) else kv)

def mapColCells (c : String) (f : Cell → Cell) (df : DF) : DF :=
  ⟨df.cols, df.rows.map (mapColRow c f)⟩

/-- `df[c] = pd.to_numeric(df[c], errors="coerce")` (etl.py lines 122-123).
Reading `df[c]` raises `KeyError` when the column is absent, which is the
error case here. -/
def toNumericCol (c : String) (df : DF) : Except String DF :=
  if c ∈ df.cols then Except.ok (mapColCells c toNumericCell df)
  else Except.error c

/-- `df[c] = scalar` (etl.py line 125): overwrite the column when present,
else append a new column holding the scalar in every row. -/
def setColConst (c : String) (v : Cell) (df : DF) : DF :=
  if c ∈ df.cols then ⟨df.cols, df.rows.map (mapColRow c (fun _ => v))⟩
  else ⟨df.cols ++ [c], df.rows.map (fun row => row ++ [(c, v)])⟩

def subsetB (xs ys : List String) : Bool :=
  xs.all (fun x => decide (x ∈ ys))

def selRow (cs : List String) (row : Row) : Row :=
  cs.map (fun c => (c, cellAt row c))

/-- `df[cs]` column selection (etl.py line 139); raises `KeyError` when a
requested label is not in the index. -/
def selectCols (cs : List String) (df : DF) : Except String DF :=
  if subsetB cs df.cols then Except.ok ⟨cs, df.rows.map (selRow cs)⟩
  else Except.error "not in index"

def dropRow (ds : List String) (row : Row) : Row :=
  row.filter (fun kv => decide (kv.1 ∉ ds))

/-- `df.drop(columns=ds)` (etl.py lines 140-142); raises `KeyError` when a
label to drop is absent. -/
def dropColsDF (ds : List String) (df : DF) : Except String DF :=
  if subsetB ds df.cols then
    Except.ok ⟨df.cols.filter (fun c => decide (c ∉ ds)), df.rows.map (dropRow ds)⟩
  else Except.error "drop"

/-- `.drop_duplicates(subset=["npi"])` (etl.py line 139): keep a row iff its
npi value has not been seen in an earlier row. -/
def dropDupNpi : List Row → List (Option Cell) → List Row
  | [], _ => []
  | row :: rest, seen =>
    if lookupKey "npi" row ∈ seen then dropDupNpi rest seen
    else row :: dropDupNpi rest (lookupKey "npi" row :: seen)

/-- The doctor column set of etl.py lines 127-137. -/
def doctor_cols : List String :=
  [ "npi", "individual_pac_id", "individual_enrollment_id",
    "provider_last_name", "provider_first_name", "provider_middle_name",
    "provider_suffix", "gender", "bq_load_dttm" ]

/-- `[x for x in doctor_cols if x not in ["npi", "bq_load_dttm"]]`
(etl.py line 141). -/
def dropList : List String :=
  doctor_cols.filter (fun x => decide (x ∉ (["npi", "bq_load_dttm"] : List String)))

/-- `transform_data` (etl.py lines 74-145), with the load timestamp an
explicit parameter.  Each `Except.error` propagates a pandas `KeyError`
(the steps run in source order: rename and replace on line 119, the two
numeric coercions on lines 122-123, the timestamp write on line 125, the
doctor selection plus dedup on line 139, the column drop on lines 140-142). -/
def transform_data (raws : List RawRecord) (now : Nat) :
    Except String (DF × DF) :=
  match toNumericCol "graduation_year" (replaceEmptyDF (renameDF (mkDF raws))) with
  | Except.error e => Except.error e
  | Except.ok df2 =>
    match toNumericCol "number_of_group_members" df2 with
    | Except.error e => Except.error e
    | Except.ok df3 =>
      match selectCols doctor_cols (setColConst "bq_load_dttm" (Cell.time now) df3) with
      | Except.error e => Except.error e
      | Except.ok dsel =>
        match dropColsDF dropList (setColConst "bq_load_dttm" (Cell.time now) df3) with
        | Except.error e => Except.error e
        | Except.ok dloc => Except.ok (⟨dsel.cols, dropDupNpi dsel.rows []⟩, dloc)

/-! ### Stage composition helpers

`procRow` is the fully unfolded form of one row of the DataFrame reaching
line 139 of etl.py (`df_raw` after rename, replace, the two numeric
coercions and the timestamp write), as a function of the originating raw
record.  `df4Of` is that DataFrame itself.
-/

def cols1Of (raws : List RawRecord) : List String :=
  (unionKeys raws).map renameCol

def procRow3 (raws : List RawRecord) (r : RawRecord) : Row :=
  mapColRow "number_of_group_members" toNumericCell
    (mapColRow "graduation_year" toNumericCell
      (mapValsRow emptyToNull (renameRow (baseRow (unionKeys raws) r))))

def procRow (raws : List RawRecord) (now : Nat) (r : RawRecord) : Row :=
  if "bq_load_dttm" ∈ cols1Of raws then
    mapColRow "bq_load_dttm" (fun _ => Cell.time now) (procRow3 raws r)
  else procRow3 raws r ++ [("bq_load_dttm", Cell.time now)]

def df1Of (raws : List RawRecord) : DF :=
  replaceEmptyDF (renameDF (mkDF raws))

def df4Of (raws : List RawRecord) (now : Nat) : DF :=
  setColConst "bq_load_dttm" (Cell.time now)
    (mapColCells "number_of_group_members" toNumericCell
      (mapColCells "graduation_year" toNumericCell (df1Of raws)))

/-- The well-formedness assumption for claims about renamed columns: every
field name of every input record belongs to the source schema known to the
pipeline (the rename map's domain), as the specification assumes. -/
abbrev KeysOk (raws : List RawRecord) : Prop :=
  ∀ r ∈ raws, ∀ kv ∈ r, kv.1 ∈ sourceFields

/-! ### Input-level views of the derived records -/

/-- The npi cell a raw record contributes, after empty-string normalization
(the npi column is renamed to itself and is not numerically coerced). -/
def rawNpi (r : RawRecord) : Cell :=
  emptyToNull (rawCell r "npi")

/-- Source field feeding each canonical doctor column. -/
def doctorSrc (c : String) : String :=
  if c = "individual_pac_id" then "ind_pac_id"
  else if c = "individual_enrollment_id" then "ind_enrl_id"
  else if c = "provider_suffix" then "suff"
  else if c = "gender" then "gndr"
  else c

/-- The DoctorRecord row derived from one raw record: the fixed doctor
field set, each value renamed and empty-string-normalized, plus the load
timestamp. -/
def doctorRowOf (r : RawRecord) (now : Nat) : Row :=
  doctor_cols.map (fun c =>
    (c, if c = "bq_load_dttm" then Cell.time now
        else emptyToNull (rawCell r (doctorSrc c))))

/-! ### Concrete fixtures used by witnesses and counterexamples -/

/-- A complete raw record (all source fields needed by the transform). -/
def rec1 : RawRecord :=
  [ ("npi", some "111"), ("ind_pac_id", some "p1"), ("ind_enrl_id", some "e1"),
    ("provider_last_name", some "Doe"), ("provider_first_name", some "Jane"),
    ("provider_middle_name", some ""), ("suff", none), ("gndr", some "F"),
    ("grd_yr", some "2005"), ("num_org_mem", some "10"),
    ("pri_spec", some "ORTHOPEDIC SURGERY"), ("state", some "AL") ]

/-- A second raw record with the same npi and unparseable numeric fields. -/
def rec2 : RawRecord :=
  [ ("npi", some "111"), ("ind_pac_id", some "p1"), ("ind_enrl_id", some "e1"),
    ("provider_last_name", some "Doe"), ("provider_first_name", some "Jane"),
    ("provider_middle_name", none), ("suff", none), ("gndr", some "F"),
    ("grd_yr", some "N/A"), ("num_org_mem", some ""),
    ("pri_spec", some "DIAGNOSTIC RADIOLOGY"), ("state", some "AL") ]

/-- A third raw record with a fresh npi and an empty graduation year. -/
def rec3 : RawRecord :=
  [ ("npi", some "222"), ("grd_yr", some ""), ("pri_spec", some "DIAGNOSTIC RADIOLOGY"),
    ("state", some "SD") ]

def rawsW : List RawRecord := [rec1, rec2, rec3]

def dW : DF :=
  match transform_data rawsW 7 with
  | Except.ok p => p.1
  | Except.error _ => DF.mk [] []

def lW : DF :=
  match transform_data rawsW 7 with
  | Except.ok p => p.2
  | Except.error _ => DF.mk [] []

def rowW : Row := lW.rows.headD []

/-- One raw record as they appear in a fetched page. -/
def recC7 : RawRecord := [("pri_spec", some "ORTHOPEDIC SURGERY")]

/-- Fetcher serving pages of sizes 1000, 1000, 1000, 400 at offsets
0, 1000, 2000, 3000 and empty pages elsewhere. -/
def fetchC7 : Nat → Except Unit (List RawRecord) := fun off =>
  if off = 0 ∨ off = 1000 ∨ off = 2000 then Except.ok (List.replicate 1000 recC7)
  else if off = 3000 then Except.ok (List.replicate 400 recC7)
  else Except.ok []

def recAL : RawRecord :=
  [("pri_spec", some "DIAGNOSTIC RADIOLOGY"), ("state", some "AL")]

def recSD : RawRecord :=
  [("pri_spec", some "ORTHOPEDIC SURGERY"), ("state", some "SD")]

/-- Fetcher whose partition key AL yields one full page and then fails,
while SD yields one short page. -/
def fetchC8 : String → Nat → Except Unit (List RawRecord) := fun st off =>
  if st = "AL" then
    (if off = 0 then Except.ok (List.replicate 1000 recAL) else Except.error ())
  else if st = "SD" then
    (if off = 0 then Except.ok [recSD] else Except.ok [])
  else Except.ok []

/-- A record with no specialty field at all. -/
def recBad : RawRecord := [("state", some "AL")]

/-- A raw record whose bq_load_dttm field holds the empty string: the
timestamp write on etl.py line 125 overwrites this column. -/
def recBq : RawRecord :=
  [ ("npi", some "444"), ("ind_pac_id", some "p4"), ("ind_enrl_id", some "e4"),
    ("provider_last_name", some "Poe"), ("provider_first_name", some "Ann"),
    ("provider_middle_name", some "B"), ("suff", none), ("gndr", some "F"),
    ("grd_yr", some "2000"), ("num_org_mem", some "5"),
    ("pri_spec", some "DIAGNOSTIC RADIOLOGY"), ("state", some "AL"),
    ("bq_load_dttm", some "") ]

def dBq : DF :=
  match transform_data [recBq] 9 with
  | Except.ok p => p.1
  | Except.error _ => DF.mk [] []

def lBq : DF :=
  match transform_data [recBq] 9 with
  | Except.ok p => p.2
  | Except.error _ => DF.mk [] []

/-! ### Lookup lemmas -/

theorem lookupKey_map_value (k : String) (f : Cell → Cell) (row : Row) :
    lookupKey k (mapValsRow f row) = (lookupKey k row).map f := by
  induction row with
  | nil => rfl
  | cons kv rest ih =>
    simp only [mapValsRow, List.map_cons] at ih ⊢
    by_cases hk : kv.1 = k
    · simp [lookupKey, hk]
    · simp [lookupKey, hk, ih]

theorem lookupKey_mapColRow (k c : String) (f : Cell → Cell) (row : Row) :
    lookupKey k (mapColRow c f row) =
      if k = c then (lookupKey k row).map f else lookupKey k row := by
  induction row with
  | nil => by_cases h : k = c <;> simp [mapColRow, lookupKey, h]
  | cons kv rest ih =>
    simp only [mapColRow, List.map_cons] at ih ⊢
    by_cases hc : kv.1 = c
    · rw [if_pos hc]
      by_cases hk : kv.1 = k
      · have hkc : k = c := by rw [← hk, hc]
        simp [lookupKey, hk, hkc]
      · have hkc : ¬ k = c := fun h => hk (hc.trans h.symm)
        simp [lookupKey, hk, hkc, ih]
    · rw [if_neg hc]
      by_cases hk : kv.1 = k
      · have hkc : ¬ k = c := fun h => hc (hk.trans h)
        simp [lookupKey, hk, hkc]
      · simp [lookupKey, hk, ih]

theorem lookupKey_append (k : String) (xs ys : List (String × α)) :
    lookupKey k (xs ++ ys) = (lookupKey k xs).or (lookupKey k ys) := by
  induction xs with
  | nil => simp [lookupKey]
  | cons kv rest ih =>
    by_cases hk : kv.1 = k <;> simp [lookupKey, hk, ih]

theorem lookupKey_filter (k : String) (p : String × Cell → Bool) (row : Row)
    (hp : ∀ v, p (k, v) = true) :
    lookupKey k (row.filter p) = lookupKey k row := by
  induction row with
  | nil => rfl
  | cons kv rest ih =>
    by_cases hk : kv.1 = k
    · have : p kv = true := by
        have := hp kv.2
        rwa [show (k, kv.2) = kv from by rw [← hk]] at this
      simp [List.filter_cons, this, lookupKey, hk]
    · by_cases hpv : p kv = true <;>
        simp [List.filter_cons, hpv, lookupKey, hk, ih]

theorem lookupKey_map_self (c0 : String) (cs : List String) (f : String → Cell) :
    lookupKey c0 (cs.map (fun c => (c, f c))) =
      if c0 ∈ cs then some (f c0) else none := by
  induction cs with
  | nil => simp [lookupKey]
  | cons c rest ih =>
    by_cases hc : c = c0
    · subst hc; simp [lookupKey]
    · simp [lookupKey, hc, ih, Ne.symm hc]

theorem cellAt_selRow (c : String) (cs : List String) (row : Row) (hc : c ∈ cs) :
    cellAt (selRow cs row) c = cellAt row c := by
  simp [selRow, cellAt, lookupKey_map_self, hc]

theorem cellAt_dropRow (k : String) (ds : List String) (row : Row) (hk : k ∉ ds) :
    cellAt (dropRow ds row) k = cellAt row k := by
  unfold cellAt dropRow
  rw [lookupKey_filter]
  intro v
  simpa using hk

theorem lookupKey_mem (k : String) (v : α) (r : List (String × α))
    (h : lookupKey k r = some v) : (k, v) ∈ r := by
  induction r with
  | nil => simp [lookupKey] at h
  | cons kv rest ih =>
    rcases kv with ⟨k1, v1⟩
    by_cases hk : k1 = k
    · simp only [lookupKey, if_pos hk] at h
      rw [Option.some_inj] at h
      subst hk
      subst h
      exact List.mem_cons_self _ _
    · simp only [lookupKey, if_neg hk] at h
      exact List.mem_cons_of_mem _ (ih h)

/-! ### Column-set lemmas -/

theorem mem_addKeys_left (a : String) (acc : List String) (r : RawRecord)
    (h : a ∈ acc) : a ∈ addKeys acc r := by
  induction r generalizing acc with
  | nil => exact h
  | cons kv rest ih =>
    unfold addKeys
    rw [List.foldl_cons]
    apply ih
    by_cases hk : kv.1 ∈ acc
    · simp [hk]
      exact h
    · simp [hk]
      left
      exact h

theorem mem_addKeys_of_key (k : String) (v : Option String) (acc : List String)
    (r : RawRecord) (h : (k, v) ∈ r) : k ∈ addKeys acc r := by
  induction r generalizing acc with
  | nil => cases h
  | cons kv rest ih =>
    unfold addKeys
    rw [List.foldl_cons]
    rcases List.mem_cons.mp h with h1 | h2
    · apply mem_addKeys_left
      subst h1
      by_cases hk : k ∈ acc
      · simp [hk]
      · simp [hk]
    · exact ih _ h2

theorem mem_foldl_addKeys (a : String) (acc : List String) (rs : List RawRecord)
    (h : a ∈ acc) : a ∈ rs.foldl addKeys acc := by
  induction rs generalizing acc with
  | nil => exact h
  | cons r rest ih =>
    rw [List.foldl_cons]
    exact ih _ (mem_addKeys_left a acc r h)

theorem mem_foldl_addKeys_of_key (k : String) (v : Option String)
    (rs : List RawRecord) (r : RawRecord) (hr : r ∈ rs) (hk : (k, v) ∈ r) :
    ∀ acc, k ∈ rs.foldl addKeys acc := by
  induction rs with
  | nil => cases hr
  | cons r0 rest ih =>
    intro acc
    rw [List.foldl_cons]
    rcases List.mem_cons.mp hr with h1 | h2
    · subst h1
      exact mem_foldl_addKeys _ _ _ (mem_addKeys_of_key k v acc r hk)
    · exact ih h2 _

theorem mem_unionKeys (raws : List RawRecord) (r : RawRecord) (k : String)
    (v : Option String) (hr : r ∈ raws) (hk : (k, v) ∈ r) : k ∈ unionKeys raws :=
  mem_foldl_addKeys_of_key k v raws r hr hk []

/-! ### Cell of the renamed base row -/

theorem cellAt_renameRow_baseRow (cols : List String) (r : RawRecord)
    (tgt src : String)
    (hsrc : renameCol src = tgt)
    (huniq : ∀ c ∈ cols, renameCol c = tgt → c = src)
    (hin : lookupKey src r = none ∨ src ∈ cols) :
    cellAt (renameRow (baseRow cols r)) tgt = rawCell r src := by
  induction cols with
  | nil =>
    rcases hin with h | h
    · simp [renameRow, baseRow, cellAt, lookupKey, rawCell, h]
    · cases h
  | cons c rest ih =>
    simp only [baseRow, List.map_cons, renameRow, cellAt, lookupKey]
    by_cases hc : renameCol c = tgt
    · have hcsrc : c = src := huniq c (List.mem_cons_self _ _) hc
      subst hcsrc
      simp [hc, rawCell]
    · rw [if_neg hc]
      have huniq2 : ∀ c2 ∈ rest, renameCol c2 = tgt → c2 = src :=
        fun c2 hm he => huniq c2 (List.mem_cons_of_mem _ hm) he
      have hin2 : lookupKey src r = none ∨ src ∈ rest := by
        rcases hin with h | h
        · exact Or.inl h
        · rcases List.mem_cons.mp h with h1 | h2
          · exact absurd (h1 ▸ hsrc) hc
          · exact Or.inr h2
      simpa [renameRow, baseRow, cellAt] using ih huniq2 hin2

/-! ### Shape of the transform pipeline -/

theorem df4Of_rows (raws : List RawRecord) (now : Nat) :
    (df4Of raws now).rows = raws.map (procRow raws now) := by
  unfold df4Of setColConst mapColCells df1Of replaceEmptyDF renameDF mkDF
  by_cases h : "bq_load_dttm" ∈ cols1Of raws
  · simp only [cols1Of] at h
    simp [h, List.map_map, procRow, procRow3, cols1Of, Function.comp]
  · simp only [cols1Of] at h
    simp [h, List.map_map, procRow, procRow3, cols1Of, Function.comp]

theorem transform_data_ok {raws : List RawRecord} {now : Nat} {d l : DF}
    (h : transform_data raws now = Except.ok (d, l)) :
    "graduation_year" ∈ cols1Of raws ∧
    "number_of_group_members" ∈ cols1Of raws ∧
    subsetB doctor_cols (df4Of raws now).cols = true ∧
    subsetB dropList (df4Of raws now).cols = true ∧
    d = ⟨doctor_cols, dropDupNpi ((df4Of raws now).rows.map (selRow doctor_cols)) []⟩ ∧
    l = ⟨(df4Of raws now).cols.filter (fun c => decide (c ∉ dropList)),
         (df4Of raws now).rows.map (dropRow dropList)⟩ := by
  unfold transform_data at h
  split at h
  next e heq => cases h
  next df2 heq =>
    have h1 : "graduation_year" ∈ cols1Of raws ∧
        df2 = mapColCells "graduation_year" toNumericCell (df1Of raws) := by
      unfold toNumericCol at heq
      by_cases hc : "graduation_year" ∈ (replaceEmptyDF (renameDF (mkDF raws))).cols
      · rw [if_pos hc] at heq
        exact ⟨hc, (Except.ok.inj heq).symm⟩
      · rw [if_neg hc] at heq
        cases heq
    obtain ⟨h1m, h1e⟩ := h1
    subst h1e
    split at h
    next e heq2 => cases h
    next df3 heq2 =>
      have h2 : "number_of_group_members" ∈ cols1Of raws ∧
          df3 = mapColCells "number_of_group_members" toNumericCell
            (mapColCells "graduation_year" toNumericCell (df1Of raws)) := by
        unfold toNumericCol at heq2
        by_cases hc : "number_of_group_members" ∈
            (mapColCells "graduation_year" toNumericCell (df1Of raws)).cols
        · rw [if_pos hc] at heq2
          exact ⟨hc, (Except.ok.inj heq2).symm⟩
        · rw [if_neg hc] at heq2
          cases heq2
      obtain ⟨h2m, h2e⟩ := h2
      subst h2e
      rw [show setColConst "bq_load_dttm" (Cell.time now)
            (mapColCells "number_of_group_members" toNumericCell
              (mapColCells "graduation_year" toNumericCell (df1Of raws))) =
            df4Of raws now from rfl] at h
      split at h
      next e heq3 => cases h
      next dsel heq3 =>
        have h3 : subsetB doctor_cols (df4Of raws now).cols = true ∧
            dsel = DF.mk doctor_cols ((df4Of raws now).rows.map (selRow doctor_cols)) := by
          unfold selectCols at heq3
          by_cases hc : subsetB doctor_cols (df4Of raws now).cols = true
          · rw [if_pos hc] at heq3
            exact ⟨hc, (Except.ok.inj heq3).symm⟩
          · rw [if_neg hc] at heq3
            cases heq3
        obtain ⟨h3m, h3e⟩ := h3
        subst h3e
        split at h
        next e heq4 => cases h
        next dloc heq4 =>
          have h4 : subsetB dropList (df4Of raws now).cols = true ∧
              dloc = DF.mk ((df4Of raws now).cols.filter (fun c => decide (c ∉ dropList)))
                ((df4Of raws now).rows.map (dropRow dropList)) := by
            unfold dropColsDF at heq4
            by_cases hc : subsetB dropList (df4Of raws now).cols = true
            · rw [if_pos hc] at heq4
              exact ⟨hc, (Except.ok.inj heq4).symm⟩
            · rw [if_neg hc] at heq4
              cases heq4
          obtain ⟨h4m, h4e⟩ := h4
          subst h4e
          have hdl := Except.ok.inj h
          exact ⟨h1m, h2m, h3m, h4m,
            (congrArg Prod.fst hdl).symm, (congrArg Prod.snd hdl).symm⟩

/-! ### Deduplication lemmas -/

theorem mem_of_mem_dropDupNpi {rows : List Row} {seen : List (Option Cell)} {row : Row}
    (h : row ∈ dropDupNpi rows seen) : row ∈ rows := by
  induction rows generalizing seen with
  | nil => cases h
  | cons r0 rest ih =>
    unfold dropDupNpi at h
    by_cases hk : lookupKey "npi" r0 ∈ seen
    · rw [if_pos hk] at h
      exact List.mem_cons_of_mem _ (ih h)
    · rw [if_neg hk] at h
      rcases List.mem_cons.mp h with h1 | h2
      · exact h1 ▸ List.mem_cons_self _ _
      · exact List.mem_cons_of_mem _ (ih h2)

theorem key_not_seen_of_mem_dropDupNpi {rows : List Row} {seen : List (Option Cell)}
    {row : Row} (h : row ∈ dropDupNpi rows seen) : lookupKey "npi" row ∉ seen := by
  induction rows generalizing seen with
  | nil => cases h
  | cons r0 rest ih =>
    unfold dropDupNpi at h
    by_cases hk : lookupKey "npi" r0 ∈ seen
    · rw [if_pos hk] at h
      exact ih h
    · rw [if_neg hk] at h
      rcases List.mem_cons.mp h with h1 | h2
      · rw [h1]
        exact hk
      · intro hmem
        exact ih h2 (List.mem_cons_of_mem _ hmem)

theorem dropDupNpi_covers {rows : List Row} {seen : List (Option Cell)} {row : Row}
    (h : row ∈ rows) :
    lookupKey "npi" row ∈ seen ∨
      ∃ row2, row2 ∈ dropDupNpi rows seen ∧
        lookupKey "npi" row2 = lookupKey "npi" row := by
  induction rows generalizing seen with
  | nil => cases h
  | cons r0 rest ih =>
    unfold dropDupNpi
    by_cases hk : lookupKey "npi" r0 ∈ seen
    · rw [if_pos hk]
      rcases List.mem_cons.mp h with h1 | h2
      · exact Or.inl (h1 ▸ hk)
      · exact ih h2
    · rw [if_neg hk]
      rcases List.mem_cons.mp h with h1 | h2
      · exact Or.inr ⟨r0, List.mem_cons_self _ _, by rw [h1]⟩
      · rcases @ih (lookupKey "npi" r0 :: seen) h2 with hs | ⟨row2, hm, he⟩
        · rcases List.mem_cons.mp hs with h3 | h4
          · exact Or.inr ⟨r0, List.mem_cons_self _ _, h3.symm⟩
          · exact Or.inl h4
        · exact Or.inr ⟨row2, List.mem_cons_of_mem _ hm, he⟩

theorem first_of_mem_dropDupNpi {rows : List Row} {seen : List (Option Cell)}
    {row : Row} (h : row ∈ dropDupNpi rows seen) :
    ∃ i, rows.get? i = some row ∧
      ∀ j row2, j < i → rows.get? j = some row2 →
        lookupKey "npi" row2 ≠ lookupKey "npi" row := by
  induction rows generalizing seen with
  | nil => cases h
  | cons r0 rest ih =>
    unfold dropDupNpi at h
    by_cases hk : lookupKey "npi" r0 ∈ seen
    · rw [if_pos hk] at h
      obtain ⟨i, hi, hmin⟩ := ih h
      refine ⟨i + 1, by rw [List.get?_cons_succ]; exact hi, ?_⟩
      intro j row2 hj hjv
      cases j with
      | zero =>
        rw [List.get?_cons_zero, Option.some_inj] at hjv
        subst hjv
        intro heq
        exact key_not_seen_of_mem_dropDupNpi h (heq ▸ hk)
      | succ j2 =>
        rw [List.get?_cons_succ] at hjv
        exact hmin j2 row2 (Nat.lt_of_succ_lt_succ hj) hjv
    · rw [if_neg hk] at h
      rcases List.mem_cons.mp h with h1 | h2
      · subst h1
        exact ⟨0, rfl, fun j row2 hj _ => absurd hj (Nat.not_lt_zero j)⟩
      · obtain ⟨i, hi, hmin⟩ := ih h2
        refine ⟨i + 1, by rw [List.get?_cons_succ]; exact hi, ?_⟩
        intro j row2 hj hjv
        cases j with
        | zero =>
          rw [List.get?_cons_zero, Option.some_inj] at hjv
          subst hjv
          intro heq
          exact key_not_seen_of_mem_dropDupNpi h2 (heq ▸ List.mem_cons_self _ _)
        | succ j2 =>
          rw [List.get?_cons_succ] at hjv
          exact hmin j2 row2 (Nat.lt_of_succ_lt_succ hj) hjv

theorem countP_dropDupNpi (rows : List Row) (seen : List (Option Cell))
    (k : Option Cell) :
    (dropDupNpi rows seen).countP (fun row => decide (lookupKey "npi" row = k)) =
      if k ∈ rows.map (fun row => lookupKey "npi" row) ∧ k ∉ seen then 1 else 0 := by
  induction rows generalizing seen with
  | nil => simp [dropDupNpi]
  | cons r0 rest ih =>
    unfold dropDupNpi
    by_cases hk : lookupKey "npi" r0 ∈ seen
    · rw [if_pos hk, ih]
      by_cases hv : k = lookupKey "npi" r0
      · subst hv
        simp [hk]
      · simp [hv]
    · rw [if_neg hk, List.countP_cons, ih]
      by_cases hv : k = lookupKey "npi" r0
      · subst hv
        simp [hk]
      · have hne : ¬ lookupKey "npi" r0 = k := fun hh => hv hh.symm
        by_cases hm : k ∈ rest.map fun row => lookupKey "npi" row
        · by_cases hs : k ∈ seen
          · simp [hne, hv, hm, hs]
          · simp [hne, hv, hm, hs]
        · by_cases hs : k ∈ seen
          · simp [hne, hv, hm, hs]
          · simp [hne, hv, hm, hs]

/-! ### Extraction lemmas -/

theorem isAllowed_of_mem_extractLoop (fetch : Nat → Except Unit (List RawRecord))
    (fuel : Nat) : ∀ off x, x ∈ (extractLoop fetch fuel off).2 → isAllowed x = true := by
  induction fuel with
  | zero =>
    intro off x h
    cases h
  | succ n ih =>
    intro off x h
    unfold extractLoop at h
    split at h
    · simp at h
    · rename_i data heq
      by_cases hemp : data.isEmpty
      · rw [if_pos hemp] at h
        simp at h
      · rw [if_neg hemp] at h
        by_cases hlen : data.length < CHUNK_SIZE
        · rw [if_pos hlen] at h
          exact (List.mem_filter.mp h).2
        · rw [if_neg hlen] at h
          rcases List.mem_append.mp h with h1 | h2
          · exact (List.mem_filter.mp h1).2
          · exact ih _ x h2

theorem extractLoop_eq_pages (fetch : Nat → Except Unit (List RawRecord))
    (fuel : Nat) : ∀ off,
    (extractLoop fetch fuel off).2 =
      ((pagesOf fetch fuel off).map (List.filter isAllowed)).flatten := by
  induction fuel with
  | zero =>
    intro off
    rfl
  | succ n ih =>
    intro off
    unfold extractLoop pagesOf
    rcases fetch off with e | data
    · rfl
    · by_cases hemp : data.isEmpty
      · simp [hemp]
      · by_cases hlen : data.length < CHUNK_SIZE
        · simp [hemp, hlen]
        · simp [hemp, hlen, ih]

theorem isAllowed_of_mem_extract (fetch : String → Nat → Except Unit (List RawRecord))
    (fuel : Nat) : ∀ sts x, x ∈ extractStates fetch fuel sts → isAllowed x = true := by
  intro sts
  induction sts with
  | nil =>
    intro x h
    cases h
  | cons st rest ih =>
    intro x h
    rcases List.mem_append.mp h with h1 | h2
    · exact isAllowed_of_mem_extractLoop (fetch st) fuel 0 x h1
    · exact ih x h2

theorem extractStates_eq_pages (fetch : String → Nat → Except Unit (List RawRecord))
    (fuel : Nat) : ∀ sts,
    extractStates fetch fuel sts =
      (sts.map (fun st =>
        ((pagesOf (fetch st) fuel 0).map (List.filter isAllowed)).flatten)).flatten := by
  intro sts
  induction sts with
  | nil => rfl
  | cons st rest ih =>
    unfold extractStates
    rw [extractLoop_eq_pages, ih]
    rfl

/-! ### Tracking one cell through the transform stages -/

theorem cellAt_mapValsRow (f : Cell → Cell) (row : Row) (c : String)
    (hf : f Cell.null = Cell.null) :
    cellAt (mapValsRow f row) c = f (cellAt row c) := by
  unfold cellAt
  rw [lookupKey_map_value]
  cases lookupKey c row <;> simp [hf]

theorem cellAt_mapColRow_ne (c k : String) (f : Cell → Cell) (row : Row)
    (h : ¬ k = c) : cellAt (mapColRow c f row) k = cellAt row k := by
  unfold cellAt
  rw [lookupKey_mapColRow, if_neg h]

theorem cellAt_mapColRow_eq (c : String) (f : Cell → Cell) (row : Row)
    (hf : f Cell.null = Cell.null) :
    cellAt (mapColRow c f row) c = f (cellAt row c) := by
  unfold cellAt
  rw [lookupKey_mapColRow, if_pos rfl]
  cases lookupKey c row <;> simp [hf]

theorem cellAt_append_ne (row : Row) (c k : String) (v : Cell) (h : ¬ c = k) :
    cellAt (row ++ [(c, v)]) k = cellAt row k := by
  unfold cellAt
  rw [lookupKey_append]
  cases lookupKey k row <;> simp [lookupKey, h]

theorem lookupKey_eq_none_of_not_mem (k : String) (row : List (String × α))
    (h : k ∉ row.map Prod.fst) : lookupKey k row = none := by
  induction row with
  | nil => rfl
  | cons kv rest ih =>
    simp only [List.map_cons, List.mem_cons] at h
    push_neg at h
    unfold lookupKey
    rw [if_neg (fun hh => h.1 hh.symm)]
    exact ih h.2

theorem lookupKey_isSome_of_mem (k : String) (row : List (String × α))
    (h : k ∈ row.map Prod.fst) : ∃ v, lookupKey k row = some v := by
  induction row with
  | nil => cases h
  | cons kv rest ih =>
    by_cases hk : kv.1 = k
    · exact ⟨kv.2, by unfold lookupKey; rw [if_pos hk]⟩
    · simp only [List.map_cons, List.mem_cons] at h
      rcases h with h1 | h2
      · exact absurd h1.symm hk
      · obtain ⟨v, hv⟩ := ih h2
        exact ⟨v, by unfold lookupKey; rw [if_neg hk]; exact hv⟩

theorem keys_mapValsRow (f : Cell → Cell) (row : Row) :
    (mapValsRow f row).map Prod.fst = row.map Prod.fst := by
  unfold mapValsRow
  rw [List.map_map]
  apply List.map_congr_left
  intro kv _
  rfl

theorem keys_mapColRow (c : String) (f : Cell → Cell) (row : Row) :
    (mapColRow c f row).map Prod.fst = row.map Prod.fst := by
  unfold mapColRow
  rw [List.map_map]
  apply List.map_congr_left
  intro kv _
  by_cases hk : kv.1 = c <;> simp [hk]

theorem keys_renameRow (row : Row) :
    (renameRow row).map Prod.fst = (row.map Prod.fst).map renameCol := by
  unfold renameRow
  rw [List.map_map, List.map_map]
  rfl

theorem keys_baseRow (cols : List String) (r : RawRecord) :
    (baseRow cols r).map Prod.fst = cols := by
  unfold baseRow
  rw [List.map_map]
  conv_rhs => rw [← List.map_id cols]
  apply List.map_congr_left
  intro c _
  rfl

theorem keys_procRow3 (raws : List RawRecord) (r : RawRecord) :
    (procRow3 raws r).map Prod.fst = cols1Of raws := by
  unfold procRow3 cols1Of
  rw [keys_mapColRow, keys_mapColRow, keys_mapValsRow, keys_renameRow, keys_baseRow]

/-- Cell of `procRow` at a column other than the coerced and timestamp ones:
the renamed, empty-string-normalized raw value of the unique source field. -/
theorem cellAt_procRow (raws : List RawRecord) (now : Nat) (r : RawRecord)
    (tgt src : String) (hr : r ∈ raws)
    (hg : ¬ tgt = "graduation_year") (hn : ¬ tgt = "number_of_group_members")
    (hb : ¬ tgt = "bq_load_dttm")
    (hsrc : renameCol src = tgt)
    (huniq : ∀ c ∈ unionKeys raws, renameCol c = tgt → c = src) :
    cellAt (procRow raws now r) tgt = emptyToNull (rawCell r src) := by
  have hin : lookupKey src r = none ∨ src ∈ unionKeys raws := by
    rcases hsome : lookupKey src r with _ | v
    · exact Or.inl rfl
    · exact Or.inr (mem_unionKeys raws r src v hr (lookupKey_mem _ _ _ hsome))
  have hbase : cellAt (procRow3 raws r) tgt = emptyToNull (rawCell r src) := by
    unfold procRow3
    rw [cellAt_mapColRow_ne _ _ _ _ hn, cellAt_mapColRow_ne _ _ _ _ hg,
      cellAt_mapValsRow _ _ _ rfl,
      cellAt_renameRow_baseRow (unionKeys raws) r tgt src hsrc huniq hin]
  unfold procRow
  by_cases hbq : "bq_load_dttm" ∈ cols1Of raws
  · rw [if_pos hbq, cellAt_mapColRow_ne _ _ _ _ hb]
    exact hbase
  · rw [if_neg hbq, cellAt_append_ne _ _ _ _ (fun hh => hb hh.symm)]
    exact hbase

/-- Cell of `procRow` at the coerced graduation-year column. -/
theorem cellAt_procRow_grad (raws : List RawRecord) (now : Nat) (r : RawRecord)
    (hr : r ∈ raws)
    (huniq : ∀ c ∈ unionKeys raws, renameCol c = "graduation_year" → c = "grd_yr") :
    cellAt (procRow raws now r) "graduation_year" =
      toNumericCell (emptyToNull (rawCell r "grd_yr")) := by
  have hin : lookupKey "grd_yr" r = none ∨ "grd_yr" ∈ unionKeys raws := by
    rcases hsome : lookupKey "grd_yr" r with _ | v
    · exact Or.inl rfl
    · exact Or.inr (mem_unionKeys raws r "grd_yr" v hr (lookupKey_mem _ _ _ hsome))
  have hbase : cellAt (procRow3 raws r) "graduation_year" =
      toNumericCell (emptyToNull (rawCell r "grd_yr")) := by
    unfold procRow3
    rw [cellAt_mapColRow_ne _ _ _ _ (by decide), cellAt_mapColRow_eq _ _ _ rfl,
      cellAt_mapValsRow _ _ _ rfl,
      cellAt_renameRow_baseRow (unionKeys raws) r "graduation_year" "grd_yr"
        (by decide) huniq hin]
  unfold procRow
  by_cases hbq : "bq_load_dttm" ∈ cols1Of raws
  · rw [if_pos hbq, cellAt_mapColRow_ne _ _ _ _ (by decide)]
    exact hbase
  · rw [if_neg hbq, cellAt_append_ne _ _ _ _ (by decide)]
    exact hbase

/-- Cell of `procRow` at the timestamp column: always the load instant. -/
theorem cellAt_procRow_bq (raws : List RawRecord) (now : Nat) (r : RawRecord) :
    cellAt (procRow raws now r) "bq_load_dttm" = Cell.time now := by
  unfold procRow
  by_cases hbq : "bq_load_dttm" ∈ cols1Of raws
  · rw [if_pos hbq]
    have hkeys : "bq_load_dttm" ∈ (procRow3 raws r).map Prod.fst := by
      rw [keys_procRow3]
      exact hbq
    obtain ⟨v, hv⟩ := lookupKey_isSome_of_mem _ _ hkeys
    unfold cellAt
    rw [lookupKey_mapColRow, if_pos rfl, hv]
    rfl
  · rw [if_neg hbq]
    have hkeys : "bq_load_dttm" ∉ (procRow3 raws r).map Prod.fst := by
      rw [keys_procRow3]
      exact hbq
    unfold cellAt
    rw [lookupKey_append, lookupKey_eq_none_of_not_mem _ _ hkeys]
    rfl

/-! ### Rename-map uniqueness and well-formed inputs -/

theorem mem_addKeys_elim {a : String} {acc : List String} {r : RawRecord}
    (h : a ∈ addKeys acc r) : a ∈ acc ∨ ∃ v, (a, v) ∈ r := by
  induction r generalizing acc with
  | nil => exact Or.inl h
  | cons kv rest ih =>
    unfold addKeys at h
    rw [List.foldl_cons] at h
    rcases ih h with h1 | ⟨v, hv⟩
    · by_cases hk : kv.1 ∈ acc
      · rw [if_pos hk] at h1
        exact Or.inl h1
      · rw [if_neg hk] at h1
        rcases List.mem_append.mp h1 with h2 | h3
        · exact Or.inl h2
        · refine Or.inr ⟨kv.2, ?_⟩
          rw [List.mem_singleton] at h3
          rw [h3]
          exact List.mem_cons_self _ _
    · exact Or.inr ⟨v, List.mem_cons_of_mem _ hv⟩

theorem mem_foldl_addKeys_elim {c : String} {rs : List RawRecord}
    {acc : List String} (h : c ∈ rs.foldl addKeys acc) :
    c ∈ acc ∨ ∃ r, r ∈ rs ∧ ∃ v, (c, v) ∈ r := by
  induction rs generalizing acc with
  | nil => exact Or.inl h
  | cons r0 rest ih =>
    rw [List.foldl_cons] at h
    rcases ih h with h1 | ⟨r, hr, v, hv⟩
    · rcases mem_addKeys_elim h1 with h2 | ⟨v, hv⟩
      · exact Or.inl h2
      · exact Or.inr ⟨r0, List.mem_cons_self _ _, v, hv⟩
    · exact Or.inr ⟨r, List.mem_cons_of_mem _ hr, v, hv⟩

theorem mem_unionKeys_elim {c : String} {raws : List RawRecord}
    (h : c ∈ unionKeys raws) : ∃ r, r ∈ raws ∧ ∃ v, (c, v) ∈ r := by
  rcases mem_foldl_addKeys_elim h with h1 | h2
  · cases h1
  · exact h2

theorem renameCol_eq_of_lookup_none {c : String}
    (h : lookupKey c rename_map = none) : renameCol c = c := by
  unfold renameCol
  rw [h]
  rfl

theorem renameCol_eq_of_lookup_some {c t : String}
    (h : lookupKey c rename_map = some t) : renameCol c = t := by
  unfold renameCol
  rw [h]
  rfl

/-- Uniqueness of the source of a renamed column among schema fields. -/
theorem renameCol_src_of_mem_sourceFields (tgt src : String)
    (hpairs : ∀ p ∈ rename_map, p.2 = tgt → p.1 = src) :
    ∀ c ∈ sourceFields, renameCol c = tgt → c = src := by
  intro c hc hr
  obtain ⟨t, ht⟩ := lookupKey_isSome_of_mem c rename_map hc
  have hmem := lookupKey_mem _ _ _ ht
  have hct : renameCol c = t := renameCol_eq_of_lookup_some ht
  exact hpairs (c, t) hmem (by rw [← hct, hr])

/-- Uniqueness of the source over all strings, for self-renamed columns. -/
theorem renameCol_src_all (tgt src : String) (hts : src = tgt)
    (hpairs : ∀ p ∈ rename_map, p.2 = tgt → p.1 = src) :
    ∀ c, renameCol c = tgt → c = src := by
  intro c hr
  rcases hl : lookupKey c rename_map with _ | t
  · rw [renameCol_eq_of_lookup_none hl] at hr
    rw [hr, hts]
  · have hmem := lookupKey_mem _ _ _ hl
    have hct : renameCol c = t := renameCol_eq_of_lookup_some hl
    exact hpairs (c, t) hmem (by rw [← hct, hr])

theorem huniq_of_KeysOk (raws : List RawRecord) (tgt src : String)
    (hk : KeysOk raws)
    (hpairs : ∀ p ∈ rename_map, p.2 = tgt → p.1 = src) :
    ∀ c ∈ unionKeys raws, renameCol c = tgt → c = src := by
  intro c hc hr
  obtain ⟨r, hrm, v, hv⟩ := mem_unionKeys_elim hc
  exact renameCol_src_of_mem_sourceFields tgt src hpairs c (hk r hrm (c, v) hv) hr

theorem selRow_procRow_eq_doctorRowOf (raws : List RawRecord) (now : Nat)
    (r : RawRecord) (hr : r ∈ raws) (hk : KeysOk raws) :
    selRow doctor_cols (procRow raws now r) = doctorRowOf r now := by
  unfold selRow doctorRowOf
  apply List.map_congr_left
  intro c hc
  have hcell : cellAt (procRow raws now r) c =
      (if c = "bq_load_dttm" then Cell.time now
       else emptyToNull (rawCell r (doctorSrc c))) := by
    have hcases : c = "npi" ∨ c = "individual_pac_id" ∨ c = "individual_enrollment_id" ∨
        c = "provider_last_name" ∨ c = "provider_first_name" ∨
        c = "provider_middle_name" ∨ c = "provider_suffix" ∨ c = "gender" ∨
        c = "bq_load_dttm" := by
      simpa [doctor_cols] using hc
    rcases hcases with h | h | h | h | h | h | h | h | h
    · subst h
      rw [cellAt_procRow raws now r "npi" "npi" hr (by decide) (by decide) (by decide)
        (by decide) (huniq_of_KeysOk raws "npi" "npi" hk (by decide))]
      rfl
    · subst h
      rw [cellAt_procRow raws now r "individual_pac_id" "ind_pac_id" hr (by decide)
        (by decide) (by decide) (by decide)
        (huniq_of_KeysOk raws "individual_pac_id" "ind_pac_id" hk (by decide))]
      rfl
    · subst h
      rw [cellAt_procRow raws now r "individual_enrollment_id" "ind_enrl_id" hr (by decide)
        (by decide) (by decide) (by decide)
        (huniq_of_KeysOk raws "individual_enrollment_id" "ind_enrl_id" hk (by decide))]
      rfl
    · subst h
      rw [cellAt_procRow raws now r "provider_last_name" "provider_last_name" hr (by decide)
        (by decide) (by decide) (by decide)
        (huniq_of_KeysOk raws "provider_last_name" "provider_last_name" hk (by decide))]
      rfl
    · subst h
      rw [cellAt_procRow raws now r "provider_first_name" "provider_first_name" hr (by decide)
        (by decide) (by decide) (by decide)
        (huniq_of_KeysOk raws "provider_first_name" "provider_first_name" hk (by decide))]
      rfl
    · subst h
      rw [cellAt_procRow raws now r "provider_middle_name" "provider_middle_name" hr (by decide)
        (by decide) (by decide) (by decide)
        (huniq_of_KeysOk raws "provider_middle_name" "provider_middle_name" hk (by decide))]
      rfl
    · subst h
      rw [cellAt_procRow raws now r "provider_suffix" "suff" hr (by decide)
        (by decide) (by decide) (by decide)
        (huniq_of_KeysOk raws "provider_suffix" "suff" hk (by decide))]
      rfl
    · subst h
      rw [cellAt_procRow raws now r "gender" "gndr" hr (by decide)
        (by decide) (by decide) (by decide)
        (huniq_of_KeysOk raws "gender" "gndr" hk (by decide))]
      rfl
    · subst h
      rw [cellAt_procRow_bq raws now r]
      rfl
  rw [hcell]

theorem d_rows_eq_dropDup {raws : List RawRecord} {now : Nat} {d l : DF}
    (h : transform_data raws now = Except.ok (d, l)) (hk : KeysOk raws) :
    d.rows = dropDupNpi (raws.map (fun r => doctorRowOf r now)) [] := by
  obtain ⟨_, _, _, _, hd, _⟩ := transform_data_ok h
  rw [hd]
  show dropDupNpi ((df4Of raws now).rows.map (selRow doctor_cols)) [] = _
  congr 1
  rw [df4Of_rows, List.map_map]
  apply List.map_congr_left
  intro r hrm
  exact selRow_procRow_eq_doctorRowOf raws now r hrm hk

theorem l_rows_eq {raws : List RawRecord} {now : Nat} {d l : DF}
    (h : transform_data raws now = Except.ok (d, l)) :
    l.rows = raws.map (fun r => dropRow dropList (procRow raws now r)) := by
  obtain ⟨_, _, _, _, _, hl⟩ := transform_data_ok h
  rw [hl]
  show (df4Of raws now).rows.map (dropRow dropList) = _
  rw [df4Of_rows, List.map_map]
  rfl

theorem lookupKey_doctorRowOf_npi (r : RawRecord) (now : Nat) :
    lookupKey "npi" (doctorRowOf r now) = some (rawNpi r) := by
  unfold doctorRowOf
  rw [lookupKey_map_self]
  rw [if_pos (by decide : ("npi" : String) ∈ doctor_cols)]
  rfl

theorem cellAt_doctorRowOf_npi (r : RawRecord) (now : Nat) :
    cellAt (doctorRowOf r now) "npi" = rawNpi r := by
  unfold cellAt
  rw [lookupKey_doctorRowOf_npi]
  rfl

/-! ### No empty-string cell survives the transform -/

theorem emptyToNull_ne_empty (x : Cell) : emptyToNull x ≠ Cell.str "" := by
  unfold emptyToNull
  by_cases h : x = Cell.str ""
  · rw [if_pos h]
    intro hh
    cases hh
  · rw [if_neg h]
    exact h

theorem toNumericCell_ne_str (y : Cell) (s : String) : toNumericCell y ≠ Cell.str s := by
  cases y with
  | null => intro hh; cases hh
  | str t =>
    unfold toNumericCell
    rcases h : parseNum t with _ | n <;> simp [h]
  | num n => intro hh; cases hh
  | time t => intro hh; cases hh

theorem no_empty_procRow3 (raws : List RawRecord) (r : RawRecord) :
    ∀ kv ∈ procRow3 raws r, kv.2 ≠ Cell.str "" := by
  intro kv hkv
  unfold procRow3 mapColRow at hkv
  rcases List.mem_map.mp hkv with ⟨kv1, h1, rfl⟩
  by_cases hc1 : kv1.1 = "number_of_group_members"
  · rw [if_pos hc1]
    exact toNumericCell_ne_str kv1.2 ""
  · rw [if_neg hc1]
    rcases List.mem_map.mp h1 with ⟨kv2, h2, rfl⟩
    by_cases hc2 : kv2.1 = "graduation_year"
    · rw [if_pos hc2]
      exact toNumericCell_ne_str kv2.2 ""
    · rw [if_neg hc2]
      unfold mapValsRow at h2
      rcases List.mem_map.mp h2 with ⟨kv3, _, rfl⟩
      exact emptyToNull_ne_empty kv3.2

theorem no_empty_procRow (raws : List RawRecord) (now : Nat) (r : RawRecord) :
    ∀ kv ∈ procRow raws now r, kv.2 ≠ Cell.str "" := by
  intro kv hkv
  unfold procRow at hkv
  by_cases hbq : "bq_load_dttm" ∈ cols1Of raws
  · rw [if_pos hbq] at hkv
    unfold mapColRow at hkv
    rcases List.mem_map.mp hkv with ⟨kv1, h1, rfl⟩
    by_cases hc : kv1.1 = "bq_load_dttm"
    · rw [if_pos hc]
      intro hh
      cases hh
    · rw [if_neg hc]
      exact no_empty_procRow3 raws r kv1 h1
  · rw [if_neg hbq] at hkv
    rcases List.mem_append.mp hkv with h1 | h2
    · exact no_empty_procRow3 raws r kv h1
    · rw [List.mem_singleton] at h2
      rw [h2]
      intro hh
      cases hh

theorem cellAt_ne_empty_of_row (row : Row)
    (hrow : ∀ kv ∈ row, kv.2 ≠ Cell.str "") (c : String) :
    cellAt row c ≠ Cell.str "" := by
  unfold cellAt
  rcases hl : lookupKey c row with _ | v
  · intro hh
    cases hh
  · exact hrow (c, v) (lookupKey_mem _ _ _ hl)

theorem no_empty_selRow (cs : List String) (row : Row)
    (hrow : ∀ kv ∈ row, kv.2 ≠ Cell.str "") :
    ∀ kv ∈ selRow cs row, kv.2 ≠ Cell.str "" := by
  intro kv hkv
  unfold selRow at hkv
  rcases List.mem_map.mp hkv with ⟨c, _, rfl⟩
  exact cellAt_ne_empty_of_row row hrow c

theorem no_empty_dropRow (ds : List String) (row : Row)
    (hrow : ∀ kv ∈ row, kv.2 ≠ Cell.str "") :
    ∀ kv ∈ dropRow ds row, kv.2 ≠ Cell.str "" := by
  intro kv hkv
  exact hrow kv (List.mem_of_mem_filter hkv)

theorem get?_map_eq (f : α → β) (l : List α) (n : Nat) :
    (l.map f).get? n = (l.get? n).map f := by
  simp [List.get?_eq_getElem?, List.getElem?_map]

/-! ### Lemmas for the empty-string normalization claim -/

theorem lookupKey_filter_none (k : String) (p : String × Cell → Bool) (row : Row)
    (hp : ∀ v, p (k, v) = false) :
    lookupKey k (row.filter p) = none := by
  induction row with
  | nil => rfl
  | cons kv rest ih =>
    by_cases hk : kv.1 = k
    · have : p kv = false := by
        have := hp kv.2
        rwa [show (k, kv.2) = kv from by rw [← hk]] at this
      simp [List.filter_cons, this, ih]
    · by_cases hpv : p kv = true <;>
        simp [List.filter_cons, hpv, lookupKey, hk, ih]

theorem rawCell_str_mem {r : RawRecord} {c s : String}
    (h : rawCell r c = Cell.str s) : (c, some s) ∈ r := by
  unfold rawCell at h
  rcases hl : lookupKey c r with _ | v
  · rw [hl] at h
    cases h
  · rcases v with _ | s2
    · rw [hl] at h
      cases h
    · rw [hl] at h
      have hs : s2 = s := by
        have := Cell.str.inj h
        exact this
      rw [hs] at hl
      exact lookupKey_mem _ _ _ hl

/-- The rename map is injective on the source schema. -/
theorem renameCol_injOn :
    ∀ c1 ∈ sourceFields, ∀ c2 ∈ sourceFields,
      renameCol c1 = renameCol c2 → c1 = c2 := by decide

/-- Inverting the rename of a doctor column back to its source field. -/
theorem doctorSrc_renameCol :
    ∀ c ∈ sourceFields, ∀ tgt ∈ doctor_cols, ¬ tgt = "bq_load_dttm" →
      renameCol c = tgt → doctorSrc tgt = c := by decide

/-- Cell of `procRow` at the coerced group-member-count column. -/
theorem cellAt_procRow_num (raws : List RawRecord) (now : Nat) (r : RawRecord)
    (hr : r ∈ raws)
    (huniq : ∀ c ∈ unionKeys raws,
      renameCol c = "number_of_group_members" → c = "num_org_mem") :
    cellAt (procRow raws now r) "number_of_group_members" =
      toNumericCell (emptyToNull (rawCell r "num_org_mem")) := by
  have hin : lookupKey "num_org_mem" r = none ∨ "num_org_mem" ∈ unionKeys raws := by
    rcases hsome : lookupKey "num_org_mem" r with _ | v
    · exact Or.inl rfl
    · exact Or.inr (mem_unionKeys raws r "num_org_mem" v hr (lookupKey_mem _ _ _ hsome))
  have hbase : cellAt (procRow3 raws r) "number_of_group_members" =
      toNumericCell (emptyToNull (rawCell r "num_org_mem")) := by
    unfold procRow3
    rw [cellAt_mapColRow_eq _ _ _ rfl, cellAt_mapColRow_ne _ _ _ _ (by decide),
      cellAt_mapValsRow _ _ _ rfl,
      cellAt_renameRow_baseRow (unionKeys raws) r "number_of_group_members"
        "num_org_mem" (by decide) huniq hin]
  unfold procRow
  by_cases hbq : "bq_load_dttm" ∈ cols1Of raws
  · rw [if_pos hbq, cellAt_mapColRow_ne _ _ _ _ (by decide)]
    exact hbase
  · rw [if_neg hbq, cellAt_append_ne _ _ _ _ (by decide)]
    exact hbase

/-! ### Claim theorems -/

theorem hW : transform_data rawsW 7 = Except.ok (dW, lW) := rfl

/-- C1: for every raw record collection accepted by the Transformer, every
row of the specialty_and_locations output has an npi value that also appears
as the npi of some row of the doctors output (referential completeness of
the split). -/
theorem C1_referential_completeness (raws : List RawRecord) (now : Nat)
    (d l : DF) (h : transform_data raws now = Except.ok (d, l)) :
    ∀ row ∈ l.rows, ∃ row2 ∈ d.rows, cellAt row2 "npi" = cellAt row "npi" := by
  obtain ⟨_, _, _, _, hd, hl⟩ := transform_data_ok h
  intro row hrow
  rw [hl] at hrow
  obtain ⟨row0, hrow0, heq⟩ := List.mem_map.mp hrow
  have hc1 : cellAt row "npi" = cellAt row0 "npi" := by
    rw [← heq]
    exact cellAt_dropRow _ _ _ (by decide)
  have hsel : selRow doctor_cols row0 ∈ (df4Of raws now).rows.map (selRow doctor_cols) :=
    List.mem_map_of_mem _ hrow0
  rcases @dropDupNpi_covers _ [] _ hsel with hfalse | ⟨row2, hmem, hkey⟩
  · cases hfalse
  · refine ⟨row2, ?_, ?_⟩
    · rw [hd]
      exact hmem
    · have h2 : cellAt (selRow doctor_cols row0) "npi" = cellAt row0 "npi" :=
        cellAt_selRow _ _ _ (by decide)
      have h3 : cellAt row2 "npi" = cellAt (selRow doctor_cols row0) "npi" := by
        unfold cellAt
        rw [hkey]
      rw [h3, h2, hc1]

/-- C1 witness: a concrete run of the transform on three records. -/
theorem C1_referential_completeness_witness :
    ∃ row2 ∈ dW.rows, cellAt row2 "npi" = cellAt rowW "npi" :=
  C1_referential_completeness rawsW 7 dW lW hW rowW (List.Mem.head _)

/-- C2: the claim states the Transformer completes without raising on every
input list including the empty one; on the empty collection the code instead
raises KeyError for the graduation_year column (reading `df["graduation_year"]`
of an empty DataFrame), so the run fails.  This theorem evaluates the
embedded transform at the failing input. -/
theorem C2_transform_raises_on_empty :
    transform_data [] 0 = Except.error "graduation_year" := rfl

/-- C5: the specialty_and_locations output has exactly one row per filtered
raw input record; no deduplication happens on that table. -/
theorem C5_specialty_row_count (raws : List RawRecord) (now : Nat) (d l : DF)
    (h : transform_data raws now = Except.ok (d, l)) :
    l.rows.length = raws.length := by
  rw [l_rows_eq h, List.length_map]

/-- C5 witness: the concrete three-record run keeps three rows. -/
theorem C5_specialty_row_count_witness : lW.rows.length = rawsW.length :=
  C5_specialty_row_count rawsW 7 dW lW hW

/-- C4: the doctors output has exactly one row per distinct npi value of the
input (counting one occurrence for each value that occurs, zero otherwise),
and each doctor row is derived from the first input record carrying its npi
(no earlier record has the same npi). -/
theorem C4_doctors_dedup_first_seen (raws : List RawRecord) (now : Nat)
    (d l : DF) (h : transform_data raws now = Except.ok (d, l))
    (hk : KeysOk raws) :
    (∀ v : Cell,
      d.rows.countP (fun row => decide (cellAt row "npi" = v)) =
        if v ∈ raws.map rawNpi then 1 else 0) ∧
    (∀ row ∈ d.rows, ∃ i r, raws.get? i = some r ∧ row = doctorRowOf r now ∧
      ∀ j r2, j < i → raws.get? j = some r2 → rawNpi r2 ≠ rawNpi r) := by
  have hrows := d_rows_eq_dropDup h hk
  constructor
  · intro v
    rw [hrows]
    have hcong : (dropDupNpi (raws.map fun r => doctorRowOf r now) []).countP
        (fun row => decide (cellAt row "npi" = v)) =
        (dropDupNpi (raws.map fun r => doctorRowOf r now) []).countP
        (fun row => decide (lookupKey "npi" row = some v)) := by
      apply List.countP_congr
      intro row hrow
      have hmem := mem_of_mem_dropDupNpi hrow
      obtain ⟨r, _, rfl⟩ := List.mem_map.mp hmem
      simp [cellAt_doctorRowOf_npi, lookupKey_doctorRowOf_npi]
    rw [hcong, countP_dropDupNpi]
    have hmapeq : (raws.map fun r => doctorRowOf r now).map
        (fun row => lookupKey "npi" row) = raws.map (fun r => some (rawNpi r)) := by
      rw [List.map_map]
      apply List.map_congr_left
      intro r _
      exact lookupKey_doctorRowOf_npi r now
    rw [hmapeq]
    by_cases hv : v ∈ raws.map rawNpi
    · rw [if_pos hv, if_pos]
      refine ⟨?_, by simp⟩
      obtain ⟨r, hr, he⟩ := List.mem_map.mp hv
      exact List.mem_map.mpr ⟨r, hr, by rw [he]⟩
    · rw [if_neg hv, if_neg]
      rintro ⟨hmm, _⟩
      obtain ⟨r, hr, he⟩ := List.mem_map.mp hmm
      exact hv (List.mem_map.mpr ⟨r, hr, Option.some_inj.mp he⟩)
  · intro row hrow
    rw [hrows] at hrow
    obtain ⟨i, hi, hmin⟩ := first_of_mem_dropDupNpi hrow
    rw [get?_map_eq] at hi
    obtain ⟨r, hr, hfr⟩ := Option.map_eq_some'.mp hi
    refine ⟨i, r, hr, hfr.symm, ?_⟩
    intro j r2 hj hjv heq
    have hne := hmin j (doctorRowOf r2 now) hj
      (by rw [get?_map_eq, hjv]; rfl)
    apply hne
    rw [← hfr, lookupKey_doctorRowOf_npi, lookupKey_doctorRowOf_npi, heq]

/-- C4 witness: the concrete run keeps one doctor row for npi 111 and its
first row is derived from the first record. -/
theorem C4_doctors_dedup_first_seen_witness :
    (dW.rows.countP (fun row => decide (cellAt row "npi" = Cell.str "111")) =
      if Cell.str "111" ∈ rawsW.map rawNpi then 1 else 0) ∧
    (∃ i r, rawsW.get? i = some r ∧ dW.rows.headD [] = doctorRowOf r 7 ∧
      ∀ j r2, j < i → rawsW.get? j = some r2 → rawNpi r2 ≠ rawNpi r) :=
  ⟨(C4_doctors_dedup_first_seen rawsW 7 dW lW hW (by decide)).1 (Cell.str "111"),
   (C4_doctors_dedup_first_seen rawsW 7 dW lW hW (by decide)).2
     (dW.rows.headD []) (List.Mem.head _)⟩

theorem hBq : transform_data [recBq] 9 = Except.ok (dBq, lBq) := rfl

/-- C9 counterexample: the claim says any field holding the empty string is
mapped to null in both output tables; the record recBq holds the empty
string in its bq_load_dttm field, yet both output tables show the load
timestamp there, because etl.py line 125 overwrites that column. -/
theorem C9_counterexample :
    transform_data [recBq] 9 = Except.ok (dBq, lBq) ∧
    rawCell recBq "bq_load_dttm" = Cell.str "" ∧
    (∃ row, dBq.rows.get? 0 = some row ∧
      cellAt row "bq_load_dttm" = Cell.time 9 ∧
      cellAt row "bq_load_dttm" ≠ Cell.null) ∧
    (∃ row, lBq.rows.get? 0 = some row ∧
      cellAt row "bq_load_dttm" = Cell.time 9 ∧
      cellAt row "bq_load_dttm" ≠ Cell.null) := by
  refine ⟨hBq, rfl, ⟨dBq.rows.headD [], rfl, rfl, ?_⟩, ⟨lBq.rows.headD [], rfl, rfl, ?_⟩⟩
  · intro hh
    rw [show cellAt (dBq.rows.headD []) "bq_load_dttm" = Cell.time 9 from rfl] at hh
    cases hh
  · intro hh
    rw [show cellAt (lBq.rows.headD []) "bq_load_dttm" = Cell.time 9 from rfl] at hh
    cases hh

/-- C9 amended: graduation-year values are numerically coerced after
empty-string normalization ("N/A" and "" map to null, "2005" maps to 2005,
unparseable values become null without raising), and any field holding the
empty string is mapped to null in both output tables, EXCEPT a field named
bq_load_dttm: its column is overwritten with the load timestamp in every
row, so it ends as the timestamp rather than null.  In addition no cell of
either output table ever holds the empty string. -/
theorem C9_amended_coercion_and_null (raws : List RawRecord)
    (now : Nat) (d l : DF) (h : transform_data raws now = Except.ok (d, l))
    (hk : KeysOk raws) :
    (∀ i r, raws.get? i = some r →
      ∃ row, l.rows.get? i = some row ∧
        cellAt row "graduation_year" =
          toNumericCell (emptyToNull (rawCell r "grd_yr"))) ∧
    toNumericCell (emptyToNull (Cell.str "N/A")) = Cell.null ∧
    toNumericCell (emptyToNull (Cell.str "")) = Cell.null ∧
    toNumericCell (emptyToNull (Cell.str "2005")) = Cell.num 2005 ∧
    (∀ i r c, raws.get? i = some r → rawCell r c = Cell.str "" →
      ¬ c = "bq_load_dttm" →
      ∃ row, l.rows.get? i = some row ∧ cellAt row (renameCol c) = Cell.null) ∧
    (∀ row ∈ d.rows, ∃ r2, r2 ∈ raws ∧ row = doctorRowOf r2 now ∧
      ∀ c, rawCell r2 c = Cell.str "" → ¬ c = "bq_load_dttm" →
        cellAt row (renameCol c) = Cell.null) ∧
    (∀ i r, raws.get? i = some r →
      ∃ row, l.rows.get? i = some row ∧
        cellAt row "bq_load_dttm" = Cell.time now) ∧
    (∀ row, (row ∈ d.rows ∨ row ∈ l.rows) → ∀ kv ∈ row, kv.2 ≠ Cell.str "") := by
  refine ⟨?_, by decide, by decide, by decide, ?_, ?_, ?_, ?_⟩
  · intro i r hir
    refine ⟨dropRow dropList (procRow raws now r), ?_, ?_⟩
    · rw [l_rows_eq h, get?_map_eq, hir]
      rfl
    · rw [cellAt_dropRow _ _ _ (by decide)]
      exact cellAt_procRow_grad raws now r (List.get?_mem hir)
        (huniq_of_KeysOk raws "graduation_year" "grd_yr" hk (by decide))
  · intro i r c hir hv hcb
    have hrm : r ∈ raws := List.get?_mem hir
    have hcs : c ∈ sourceFields := hk r hrm (c, some "") (rawCell_str_mem hv)
    refine ⟨dropRow dropList (procRow raws now r), ?_, ?_⟩
    · rw [l_rows_eq h, get?_map_eq, hir]
      rfl
    · by_cases hdrop : renameCol c ∈ dropList
      · unfold cellAt dropRow
        rw [lookupKey_filter_none]
        · rfl
        · intro v
          simp [hdrop]
      · rw [cellAt_dropRow _ _ _ hdrop]
        by_cases hg : renameCol c = "graduation_year"
        · have hcg : c = "grd_yr" :=
            renameCol_src_of_mem_sourceFields "graduation_year" "grd_yr"
              (by decide) c hcs hg
          subst hcg
          rw [hg, cellAt_procRow_grad raws now r hrm
            (huniq_of_KeysOk raws "graduation_year" "grd_yr" hk (by decide)), hv]
          rfl
        · by_cases hn : renameCol c = "number_of_group_members"
          · have hcn : c = "num_org_mem" :=
              renameCol_src_of_mem_sourceFields "number_of_group_members"
                "num_org_mem" (by decide) c hcs hn
            subst hcn
            rw [hn, cellAt_procRow_num raws now r hrm
              (huniq_of_KeysOk raws "number_of_group_members" "num_org_mem" hk
                (by decide)), hv]
            rfl
          · have hb2 : ¬ renameCol c = "bq_load_dttm" := fun hbq =>
              hcb (renameCol_src_of_mem_sourceFields "bq_load_dttm" "bq_load_dttm"
                (by decide) c hcs hbq)
            have huniq : ∀ c2 ∈ unionKeys raws, renameCol c2 = renameCol c → c2 = c := by
              intro c2 hc2 hr2
              obtain ⟨r3, hr3, v3, hv3⟩ := mem_unionKeys_elim hc2
              exact renameCol_injOn c2 (hk r3 hr3 (c2, v3) hv3) c hcs hr2
            rw [cellAt_procRow raws now r (renameCol c) c hrm hg hn hb2 rfl huniq, hv]
            rfl
  · intro row hrow
    rw [d_rows_eq_dropDup h hk] at hrow
    obtain ⟨r2, hr2, rfl⟩ := List.mem_map.mp (mem_of_mem_dropDupNpi hrow)
    refine ⟨r2, hr2, rfl, ?_⟩
    intro c hv hcb
    have hcs : c ∈ sourceFields := hk r2 hr2 (c, some "") (rawCell_str_mem hv)
    unfold doctorRowOf cellAt
    rw [lookupKey_map_self]
    by_cases hd2 : renameCol c ∈ doctor_cols
    · rw [if_pos hd2]
      have hb2 : ¬ renameCol c = "bq_load_dttm" := fun hbq =>
        hcb (renameCol_src_of_mem_sourceFields "bq_load_dttm" "bq_load_dttm"
          (by decide) c hcs hbq)
      rw [Option.getD_some, if_neg hb2,
        doctorSrc_renameCol c hcs (renameCol c) hd2 hb2 rfl, hv]
      rfl
    · rw [if_neg hd2]
      rfl
  · intro i r hir
    refine ⟨dropRow dropList (procRow raws now r), ?_, ?_⟩
    · rw [l_rows_eq h, get?_map_eq, hir]
      rfl
    · rw [cellAt_dropRow _ _ _ (by decide)]
      exact cellAt_procRow_bq raws now r
  · intro row hrow kv hkv
    rcases hrow with hdm | hlm
    · obtain ⟨_, _, _, _, hdd, _⟩ := transform_data_ok h
      rw [hdd] at hdm
      have hmm := mem_of_mem_dropDupNpi hdm
      obtain ⟨row4, h4, rfl⟩ := List.mem_map.mp hmm
      rw [df4Of_rows] at h4
      obtain ⟨r, _, rfl⟩ := List.mem_map.mp h4
      exact no_empty_selRow _ _ (no_empty_procRow raws now r) kv hkv
    · rw [l_rows_eq h] at hlm
      obtain ⟨r, _, rfl⟩ := List.mem_map.mp hlm
      exact no_empty_dropRow _ _ (no_empty_procRow raws now r) kv hkv

/-- C9 amended witness: the "N/A" graduation year of record 1 coerces to
null, the empty num_org_mem field of record 1 is mapped to null in the
specialty table, the first doctors row maps its empty provider_middle_name
to null, and row 0 carries the load timestamp. -/
theorem C9_amended_witness :
    (∃ row, lW.rows.get? 1 = some row ∧
      cellAt row "graduation_year" =
        toNumericCell (emptyToNull (rawCell rec2 "grd_yr"))) ∧
    (∃ row, lW.rows.get? 1 = some row ∧
      cellAt row (renameCol "num_org_mem") = Cell.null) ∧
    (∃ r2, r2 ∈ rawsW ∧ dW.rows.headD [] = doctorRowOf r2 7 ∧
      ∀ c, rawCell r2 c = Cell.str "" → ¬ c = "bq_load_dttm" →
        cellAt (dW.rows.headD []) (renameCol c) = Cell.null) ∧
    (∃ row, lW.rows.get? 0 = some row ∧
      cellAt row "bq_load_dttm" = Cell.time 7) :=
  ⟨(C9_amended_coercion_and_null rawsW 7 dW lW hW (by decide)).1 1 rec2 rfl,
   (C9_amended_coercion_and_null rawsW 7 dW lW hW (by decide)).2.2.2.2.1
     1 rec2 "num_org_mem" rfl rfl (by decide),
   (C9_amended_coercion_and_null rawsW 7 dW lW hW (by decide)).2.2.2.2.2.1
     (dW.rows.headD []) (List.Mem.head _),
   (C9_amended_coercion_and_null rawsW 7 dW lW hW (by decide)).2.2.2.2.2.2.1
     0 rec1 rfl⟩

/-- C6: every record in the Extractor result carries a specialty value that
belongs to the fixed allow-list; a record whose specialty lies outside the
allow-list is never part of the result; and the result is exactly the
concatenation, in partition-key iteration order, of the filtered pages of
each key in page order. -/
theorem C6_extract_allowlist_and_order
    (fetch : String → Nat → Except Unit (List RawRecord)) (fuel : Nat) :
    (∀ x ∈ extract_cms_data fetch fuel,
      ∃ s, getField x "pri_spec" = some s ∧ s ∈ SPECIALTY_FILTER) ∧
    (∀ x s, getField x "pri_spec" = some s → s ∉ SPECIALTY_FILTER →
      x ∉ extract_cms_data fetch fuel) ∧
    extract_cms_data fetch fuel =
      (STATES_LIST.map (fun st =>
        ((pagesOf (fetch st) fuel 0).map (List.filter isAllowed)).flatten)).flatten := by
  refine ⟨?_, ?_, extractStates_eq_pages fetch fuel STATES_LIST⟩
  · intro x hx
    have hall := isAllowed_of_mem_extract fetch fuel STATES_LIST x hx
    unfold isAllowed at hall
    rcases hg : getField x "pri_spec" with _ | s
    · rw [hg] at hall
      simp at hall
    · rw [hg] at hall
      refine ⟨s, rfl, ?_⟩
      simpa using hall
  · intro x s hg hns hx
    have hall := isAllowed_of_mem_extract fetch fuel STATES_LIST x hx
    unfold isAllowed at hall
    rw [hg] at hall
    simp at hall
    exact hns hall

/-- One disallowed record, for the C6 witness. -/
theorem C6_extract_allowlist_witness :
    (∃ s, getField recAL "pri_spec" = some s ∧ s ∈ SPECIALTY_FILTER) ∧
    [("pri_spec", some "CARDIOLOGY")] ∉ extract_cms_data fetchC8 3 :=
  ⟨(C6_extract_allowlist_and_order fetchC8 3).1 recAL (List.Mem.head _),
   (C6_extract_allowlist_and_order fetchC8 3).2.1
     [("pri_spec", some "CARDIOLOGY")] "CARDIOLOGY" rfl (by decide)⟩

/-- C7: against a source serving pages of sizes 1000, 1000, 1000, 400 for
one partition key, the loop performs exactly the four fetches at offsets
0, 1000, 2000, 3000 and stops after the short page without a fifth fetch;
in general any non-empty page shorter than the page size ends pagination
for its key immediately. -/
theorem C7_pagination_termination :
    (extractLoop fetchC7 10 0).1 = [0, 1000, 2000, 3000] ∧
    ∀ (fetch : Nat → Except Unit (List RawRecord)) (fuel off : Nat)
      (data : List RawRecord), fetch off = Except.ok data →
      data.isEmpty = false → data.length < CHUNK_SIZE →
      (extractLoop fetch (fuel + 1) off).1 = [off] := by
  constructor
  · decide
  · intro fetch fuel off data hf hemp hlen
    simp [extractLoop, hf, hemp, hlen]

/-- C7 witness: the short page alone also terminates pagination. -/
theorem C7_pagination_termination_witness :
    (extractLoop fetchC7 10 0).1 = [0, 1000, 2000, 3000] ∧
    (extractLoop fetchC7 (9 + 1) 3000).1 = [3000] :=
  ⟨C7_pagination_termination.1,
   C7_pagination_termination.2 fetchC7 9 3000 (List.replicate 400 recC7)
     rfl (by decide) (by decide)⟩

/-- C8: when a partition key's page fetch fails after a full page, the
records filtered from the earlier page are still that key's contribution,
and the overall result is always the concatenation of the per-key
contributions, so every other partition key is still processed. -/
theorem C8_fetch_failure_isolation
    (fetch : String → Nat → Except Unit (List RawRecord))
    (fuel off : Nat) (data : List RawRecord)
    (h1 : fetch "AL" off = Except.ok data) (h2 : data.length = CHUNK_SIZE)
    (h3 : fetch "AL" (off + CHUNK_SIZE) = Except.error ()) :
    (extractLoop (fetch "AL") (fuel + 2) off).2 = data.filter isAllowed ∧
    ∀ fl, extract_cms_data fetch fl =
      (extractLoop (fetch "AL") fl 0).2 ++ (extractLoop (fetch "SD") fl 0).2 := by
  constructor
  · have hemp : data.isEmpty = false := by
      rcases data with _ | ⟨a, rest⟩
      · simp [CHUNK_SIZE] at h2
      · rfl
    have hlen : ¬ data.length < CHUNK_SIZE := by
      rw [h2]
      exact Nat.lt_irrefl _
    show (extractLoop (fetch "AL") (fuel + 1 + 1) off).2 = data.filter isAllowed
    simp [extractLoop, h1, h3, hemp, hlen]
  · intro fl
    simp [extract_cms_data, extractStates, STATES_LIST]

/-- C8 witness: partition key AL keeps its first-page records after the
second fetch fails, and SD is still processed. -/
theorem C8_fetch_failure_isolation_witness :
    (extractLoop (fetchC8 "AL") (10 + 2) 0).2 =
      (List.replicate 1000 recAL).filter isAllowed ∧
    extract_cms_data fetchC8 12 =
      (extractLoop (fetchC8 "AL") 12 0).2 ++ (extractLoop (fetchC8 "SD") 12 0).2 :=
  ⟨(C8_fetch_failure_isolation fetchC8 10 0 (List.replicate 1000 recAL)
     rfl (by simp [CHUNK_SIZE]) rfl).1,
   (C8_fetch_failure_isolation fetchC8 10 0 (List.replicate 1000 recAL)
     rfl (by simp [CHUNK_SIZE]) rfl).2 12⟩

/-- C10: a record with no specialty field at all (key absent or value null)
is never part of the Extractor result: the membership test excludes missing
values instead of raising or admitting them. -/
theorem C10_missing_specialty_excluded
    (fetch : String → Nat → Except Unit (List RawRecord)) (fuel : Nat)
    (x : RawRecord) (hx : getField x "pri_spec" = none) :
    x ∉ extract_cms_data fetch fuel := by
  intro hmem
  have hall := isAllowed_of_mem_extract fetch fuel STATES_LIST x hmem
  unfold isAllowed at hall
  rw [hx] at hall
  simp at hall

/-- C10 witness: the record holding only a state field is excluded. -/
theorem C10_missing_specialty_excluded_witness :
    getField recBad "pri_spec" = none ∧ recBad ∉ extract_cms_data fetchC8 3 :=
  ⟨rfl, C10_missing_specialty_excluded fetchC8 3 recBad rfl⟩

end Etl
